import Mathlib

/-!
Verification of the simple-query-engine repository: a shallow embedding of
`src/value.rs`, `src/table.rs`, `src/query.rs` and `src/query_engine.rs`,
followed by theorems about the embedded definitions.

Conventions of the embedding:
* Rust `u64` values are `Nat`s; the `2 ^ 64` bound is checked exactly where the
  source checks it (`u64` parsing) or where wrapping matters (`usize`
  subtraction, written `(x + (2 ^ 64 - 1)) % 2 ^ 64`).
* Fallible Rust code (`Result`) becomes `Except`; a Rust panic (integer
  underflow in debug builds, out-of-bounds slice indexing) is a dedicated
  `RunResult.aborted` outcome.
* Borrowed index entries (`&'a Value`) are modelled as owned copies: the table
  is immutable, so a borrow and a copy are indistinguishable.
-/

set_option maxHeartbeats 1000000

namespace SimpleQueryEngine

/-- `Value` (src/value.rs): a tagged scalar, `Integer(u64)` or `Text(String)`.
Integers are modelled as `Nat`; every integer the program constructs goes
through `u64` parsing, which enforces the `2 ^ 64` bound. -/
inductive Value where
| Integer (n : Nat)
| Text (s : String)
deriving DecidableEq

/-- Comparison of two characters by code point, as Rust compares `char`s and
as byte-wise UTF-8 comparison orders the characters of two `str`s. -/
def charCmp (a b : Char) : Ordering := compare a.toNat b.toNat

/-- Lexicographic comparison of character lists: Rust's `str`/`String` ordering
(byte-wise lexicographic, which agrees with code-point lexicographic order on
valid UTF-8). -/
def lexCmp : List Char → List Char → Ordering
| [], [] => .eq
| [], _ :: _ => .lt
| _ :: _, [] => .gt
| a :: l, b :: m =>
  match charCmp a b with
  | .eq => lexCmp l m
  | o => o

/-- One character of Rust's `{:?}` (Debug) rendering of a string: quotes,
backslashes and the common control characters are escaped.  (Rust escapes the
remaining non-printable characters too; `Value.cmp` consults the debug strings
only cross-variant, where the first character `I` vs `T` already decides the
comparison, so those escapes are unobservable in `Value.cmp`.) -/
def rustEscapeDebug (c : Char) : List Char :=
  if c = '"' then ['\\', '"']
  else if c = '\\' then ['\\', '\\']
  else if c = '\n' then ['\\', 'n']
  else if c = '\r' then ['\\', 'r']
  else if c = '\t' then ['\\', 't']
  else [c]

/-- The characters of `format!("{:?}", v)` for a `Value` (src/value.rs derives
`Debug`): `Integer(n)` or `Text("...")`. -/
def Value.debugChars : Value → List Char
| .Integer n => "Integer(".data ++ (toString n).data ++ [')']
| .Text s => "Text(".data ++ '"' :: (s.data.flatMap rustEscapeDebug ++ ['"', ')'])

/-- `impl Ord for Value` (src/value.rs lines 21-29): same-variant values compare
natively (numeric for integers, lexicographic for text); the cross-variant
fallback compares the `{:?}` debug strings. -/
def Value.cmp : Value → Value → Ordering
| .Integer x, .Integer y => compare x y
| .Text x, .Text y => lexCmp x.data y.data
| x, y => lexCmp x.debugChars y.debugChars

theorem charCmp_self (a : Char) : charCmp a a = .eq := by
  simp [charCmp, Nat.compare_eq_eq]

theorem charCmp_eq_eq {a b : Char} : charCmp a b = .eq ↔ a = b := by
  constructor
  · intro h
    have hn : a.toNat = b.toNat := Nat.compare_eq_eq.mp h
    exact Char.ext (UInt32.ext hn)
  · rintro rfl; exact charCmp_self a

theorem charCmp_swap (a b : Char) : charCmp a b = (charCmp b a).swap := by
  simp [charCmp, Nat.compare_swap]

theorem charCmp_trans_lt {a b c : Char} (h₁ : charCmp a b = .lt)
    (h₂ : charCmp b c = .lt) : charCmp a c = .lt := by
  simp only [charCmp, Nat.compare_eq_lt] at *
  omega

theorem lexCmp_cons (a b : Char) (l m : List Char) :
    lexCmp (a :: l) (b :: m) =
      (match charCmp a b with
       | .eq => lexCmp l m
       | o => o) := rfl

theorem lexCmp_cons_eq {a b : Char} (h : charCmp a b = .eq) (l m : List Char) :
    lexCmp (a :: l) (b :: m) = lexCmp l m := by
  rw [lexCmp_cons, h]

theorem lexCmp_cons_lt {a b : Char} (h : charCmp a b = .lt) (l m : List Char) :
    lexCmp (a :: l) (b :: m) = .lt := by
  rw [lexCmp_cons, h]

theorem lexCmp_cons_gt {a b : Char} (h : charCmp a b = .gt) (l m : List Char) :
    lexCmp (a :: l) (b :: m) = .gt := by
  rw [lexCmp_cons, h]

theorem lexCmp_self : ∀ l : List Char, lexCmp l l = .eq
| [] => rfl
| a :: l => by
  simp [lexCmp, charCmp_self a, lexCmp_self l]

theorem lexCmp_eq_eq : ∀ {l m : List Char}, lexCmp l m = .eq ↔ l = m
| [], [] => by simp [lexCmp]
| [], _ :: _ => by simp [lexCmp]
| _ :: _, [] => by simp [lexCmp]
| a :: l, b :: m => by
  rcases h : charCmp a b
  · rw [lexCmp_cons_lt h]
    constructor
    · intro hc; cases hc
    · rintro ⟨rfl, rfl⟩
      rw [charCmp_self] at h; cases h
  · have hab : a = b := charCmp_eq_eq.mp h
    subst hab
    rw [lexCmp_cons_eq h, lexCmp_eq_eq]
    simp
  · rw [lexCmp_cons_gt h]
    constructor
    · intro hc; cases hc
    · rintro ⟨rfl, rfl⟩
      rw [charCmp_self] at h; cases h

theorem lexCmp_swap : ∀ (l m : List Char), lexCmp l m = (lexCmp m l).swap
| [], [] => rfl
| [], _ :: _ => rfl
| _ :: _, [] => rfl
| a :: l, b :: m => by
  have hsw : charCmp a b = (charCmp b a).swap := charCmp_swap a b
  rcases h : charCmp b a <;> rw [h] at hsw
  · rw [lexCmp_cons_gt hsw, lexCmp_cons_lt h]; rfl
  · rw [lexCmp_cons_eq hsw, lexCmp_cons_eq h]
    exact lexCmp_swap l m
  · rw [lexCmp_cons_lt hsw, lexCmp_cons_gt h]; rfl

theorem lexCmp_trans_lt : ∀ {l m k : List Char}, lexCmp l m = .lt →
    lexCmp m k = .lt → lexCmp l k = .lt
| [], [], _ :: _, _, _ => by simp [lexCmp]
| [], _ :: _, _ :: _, _, _ => by simp [lexCmp]
| [], [], [], _, h₂ => by simp [lexCmp] at h₂
| [], _ :: _, [], _, h₂ => by simp [lexCmp] at h₂
| _ :: _, [], _, h₁, _ => by simp [lexCmp] at h₁
| _ :: _, _ :: _, [], _, h₂ => by simp [lexCmp] at h₂
| a :: l, b :: m, c :: k, h₁, h₂ => by
  rcases hab : charCmp a b
  · rcases hbc : charCmp b c
    · exact lexCmp_cons_lt (charCmp_trans_lt hab hbc) l k
    · have : b = c := charCmp_eq_eq.mp hbc
      subst this
      exact lexCmp_cons_lt hab l k
    · rw [lexCmp_cons_gt hbc] at h₂; cases h₂
  · have : a = b := charCmp_eq_eq.mp hab
    subst this
    rw [lexCmp_cons_eq hab] at h₁
    rcases hbc : charCmp a c
    · exact lexCmp_cons_lt hbc l k
    · rw [lexCmp_cons_eq hbc] at h₂
      rw [lexCmp_cons_eq hbc]
      exact lexCmp_trans_lt h₁ h₂
    · rw [lexCmp_cons_gt hbc] at h₂; cases h₂
  · rw [lexCmp_cons_gt hab] at h₁; cases h₁

theorem cmp_Integer_Text (n : Nat) (s : String) :
    Value.cmp (.Integer n) (.Text s) = .lt := by
  have h1 : (Value.Integer n).debugChars
      = 'I' :: (("nteger(".data ++ (toString n).data) ++ [')']) := rfl
  have h2 : (Value.Text s).debugChars
      = 'T' :: ("ext(".data ++ '"' :: (s.data.flatMap rustEscapeDebug ++ ['"', ')'])) := rfl
  show lexCmp (Value.Integer n).debugChars (Value.Text s).debugChars = .lt
  rw [h1, h2]
  exact lexCmp_cons_lt (by decide) _ _

theorem cmp_Text_Integer (s : String) (n : Nat) :
    Value.cmp (.Text s) (.Integer n) = .gt := by
  have h1 : (Value.Integer n).debugChars
      = 'I' :: (("nteger(".data ++ (toString n).data) ++ [')']) := rfl
  have h2 : (Value.Text s).debugChars
      = 'T' :: ("ext(".data ++ '"' :: (s.data.flatMap rustEscapeDebug ++ ['"', ')'])) := rfl
  show lexCmp (Value.Text s).debugChars (Value.Integer n).debugChars = .gt
  rw [h1, h2]
  exact lexCmp_cons_gt (by decide) _ _

theorem Value.cmp_self : ∀ a : Value, Value.cmp a a = .eq
| .Integer n => by simp [Value.cmp, Nat.compare_eq_eq]
| .Text s => by simp [Value.cmp, lexCmp_self]

theorem Value.cmp_eq_eq : ∀ {a b : Value}, Value.cmp a b = .eq ↔ a = b
| .Integer x, .Integer y => by simp [Value.cmp, Nat.compare_eq_eq]
| .Text x, .Text y => by
  show lexCmp x.data y.data = .eq ↔ _
  rw [lexCmp_eq_eq]
  constructor
  · intro h; rw [String.ext h]
  · intro h; cases h; rfl
| .Integer x, .Text y => by simp [cmp_Integer_Text]
| .Text x, .Integer y => by simp [cmp_Text_Integer]

theorem Value.cmp_swap : ∀ a b : Value, Value.cmp a b = (Value.cmp b a).swap
| .Integer x, .Integer y => (Nat.compare_swap y x).symm
| .Text x, .Text y => lexCmp_swap x.data y.data
| .Integer x, .Text y => by rw [cmp_Integer_Text, cmp_Text_Integer]; rfl
| .Text x, .Integer y => by rw [cmp_Text_Integer, cmp_Integer_Text]; rfl

theorem Value.cmp_trans_lt : ∀ {a b c : Value}, Value.cmp a b = .lt →
    Value.cmp b c = .lt → Value.cmp a c = .lt
| .Integer _, .Integer _, .Integer _, h₁, h₂ => by
  show compare _ _ = _
  simp only [Value.cmp, Nat.compare_eq_lt] at *
  omega
| .Text _, .Text _, .Text _, h₁, h₂ => lexCmp_trans_lt h₁ h₂
| .Integer _, _, .Text _, _, _ => cmp_Integer_Text _ _
| .Text _, .Integer _, _, h₁, _ => by rw [cmp_Text_Integer] at h₁; cases h₁
| .Integer _, .Text _, .Integer _, _, h₂ => by rw [cmp_Text_Integer] at h₂; cases h₂
| .Text _, .Text _, .Integer _, _, h₂ => by rw [cmp_Text_Integer] at h₂; cases h₂

theorem ordering_ne_gt_iff (o : Ordering) : o ≠ .gt ↔ o = .lt ∨ o = .eq := by
  cases o <;> simp

theorem Value.cmp_trans_le {a b c : Value} (h₁ : Value.cmp a b ≠ .gt)
    (h₂ : Value.cmp b c ≠ .gt) : Value.cmp a c ≠ .gt := by
  rw [ordering_ne_gt_iff] at h₁ h₂ ⊢
  rcases h₁ with h₁ | h₁ <;> rcases h₂ with h₂ | h₂
  · exact Or.inl (Value.cmp_trans_lt h₁ h₂)
  · rw [Value.cmp_eq_eq] at h₂; subst h₂; exact Or.inl h₁
  · rw [Value.cmp_eq_eq] at h₁; subst h₁; exact Or.inl h₂
  · rw [Value.cmp_eq_eq] at h₁; subst h₁; exact Or.inr h₂

theorem Value.cmp_total (a b : Value) : Value.cmp a b ≠ .gt ∨ Value.cmp b a ≠ .gt := by
  rcases h : Value.cmp a b
  · exact Or.inl (by simp)
  · exact Or.inl (by simp)
  · right
    rw [Value.cmp_swap b a, h]
    simp [Ordering.swap]

instance {ε α : Type} [DecidableEq ε] [DecidableEq α] : DecidableEq (Except ε α)
| .error e, .error e' =>
  if h : e = e' then .isTrue (by rw [h]) else .isFalse (by intro hc; cases hc; exact h rfl)
| .error _, .ok _ => .isFalse (by intro hc; cases hc)
| .ok _, .error _ => .isFalse (by intro hc; cases hc)
| .ok a, .ok a' =>
  if h : a = a' then .isTrue (by rw [h]) else .isFalse (by intro hc; cases hc; exact h rfl)

/-- The parse failures of the program: the two ways `u64::from_str` fails inside
`Value::parse_value` (src/value.rs line 40), and the failures of
`Query::parse_filter` (src/query.rs lines 64-86). -/
inductive ParseError where
| emptyNumber
| numberOverflow
| invalidDigit
| unknownOperator (tok : String)
| missingFilterColumn
| missingFilterOperator
| missingFilterValue
| expectedFilterKeyword
deriving DecidableEq

/-- Numeric value of a list of decimal digits, most significant first. -/
def natOfDigits (cs : List Char) : Nat := cs.foldl (fun a c => a * 10 + (c.toNat - 48)) 0

/-- The digit phase of `u64::from_str`: at least one decimal digit, whose value
must stay below `2 ^ 64` (Rust's per-digit checked arithmetic overflows
exactly when the complete value reaches `2 ^ 64`). -/
def u64FromDigits (cs : List Char) : Except ParseError Nat :=
  if cs.isEmpty then .error .emptyNumber
  else if cs.all Char.isDigit then
    if natOfDigits cs < 2 ^ 64 then .ok (natOfDigits cs) else .error .numberOverflow
  else .error .invalidDigit

/-- `u64::from_str`, as called by `value.parse()?` in src/value.rs line 40: an
optional leading `+` sign, then the digit phase. -/
def u64FromStr (s : String) : Except ParseError Nat :=
  u64FromDigits (if s.data.head? = some '+' then s.data.tail else s.data)

/-- `Value::parse_value` (src/value.rs lines 38-44): if every character is an
ASCII decimal digit, parse the string as an `Integer` (propagating the `u64`
parse error); otherwise return it as `Text` verbatim. -/
def Value.parse_value (s : String) : Except ParseError Value :=
  if s.data.all Char.isDigit then (u64FromStr s).map Value.Integer else .ok (.Text s)

/-- `FilterType` (src/query.rs lines 97-100). -/
inductive FilterType where
| Greater
| Equal
deriving DecidableEq

/-- `Filter` (src/query.rs lines 89-94). -/
structure Filter where
  column_name : String
  value : Value
  filter_type : FilterType
deriving DecidableEq

/-- `Query` (src/query.rs lines 6-10). -/
structure Query where
  column_names : List String
  filter : Option Filter
deriving DecidableEq

/-- `FilterType::from` (src/query.rs lines 102-110). -/
def FilterType.ofToken : String → Except ParseError FilterType
| ">" => .ok .Greater
| "=" => .ok .Equal
| tok => .error (.unknownOperator tok)

/-- Rust's `str::trim_matches('"')` as used in src/query.rs line 72: strips every
leading and every trailing double-quote character. -/
def trimQuoteMatches (s : String) : String :=
  ⟨((s.data.dropWhile (· = '"')).reverse.dropWhile (· = '"')).reverse⟩

/-- `Query::parse_filter` (src/query.rs lines 64-86): at `position` either finds
no token (no filter clause), or requires the keyword `FILTER` followed by a
column token, an operator token and a value token; the value token has its
surrounding double quotes stripped and is then fed to `Value::parse_value`. -/
def Query.parse_filter (tokens : List String) (position : Nat) :
    Except ParseError (Option Filter × Nat) :=
  match tokens.get? position with
  | none => .ok (none, position)
  | some tok =>
    if tok = "FILTER" then
      match tokens.get? (position + 1) with
      | none => .error .missingFilterColumn
      | some column =>
        match tokens.get? (position + 2) with
        | none => .error .missingFilterOperator
        | some opTok =>
          match FilterType.ofToken opTok with
          | .error e => .error e
          | .ok filter_type =>
            match (tokens.get? (position + 3)).map trimQuoteMatches with
            | none => .error .missingFilterValue
            | some valTok =>
              match Value.parse_value valTok with
              | .error e => .error e
              | .ok value => .ok (some ⟨column, value, filter_type⟩, position + 4)
    else .error .expectedFilterKeyword

/-- `ColumnType` (src/table.rs lines 35-39). -/
inductive ColumnType where
| Integer
| Text
deriving DecidableEq

/-- `Column` (src/table.rs lines 29-33). -/
structure Column where
  name : String
  column_type : ColumnType
deriving DecidableEq

/-- `Row` (src/table.rs lines 41-44). -/
structure Row where
  fields : List Value
deriving DecidableEq

/-- `Table` (src/table.rs lines 6-10). -/
structure Table where
  columns : List Column
  rows : List Row
deriving DecidableEq

/-- `ValueInRow` (src/table.rs lines 23-27); the borrowed `&'a Value` is an
owned copy here. -/
structure ValueInRow where
  value : Value
  row_index : Nat
deriving DecidableEq

/-- `Index` (src/table.rs lines 17-21). -/
structure Index where
  column_name : String
  sorted_column_values : List ValueInRow
deriving DecidableEq

/-- `TableIndices` (src/table.rs lines 12-15): the `HashMap<String, Index>` is
kept as an association list in insertion (column) order; lookup takes the most
recently inserted binding, as `HashMap::insert` overwrites. -/
structure TableIndices where
  column_indices : List (String × Index)
deriving DecidableEq

/-- `HashMap::get` under the insert-overwrites model: last binding wins. -/
def lookupIndex (m : List (String × Index)) (name : String) : Option Index :=
  (m.reverse.find? (fun p => p.1 == name)).map (·.2)

/-- The comparator `x.value.cmp(y.value)` of src/table.rs line 59, read as the
"less than or equal" relation the stable sort orders by. -/
def entryLe (x y : ValueInRow) : Prop := Value.cmp x.value y.value ≠ .gt

instance : DecidableRel entryLe := fun x y => by
  unfold entryLe; infer_instance

instance : IsTotal ValueInRow entryLe :=
  ⟨fun a b => Value.cmp_total a.value b.value⟩

instance : IsTrans ValueInRow entryLe :=
  ⟨fun _ _ _ => Value.cmp_trans_le⟩

/-- A `for`-loop that pushes `f a` for each element and propagates the first
`Err` with `?`, as the source's accumulation loops do. -/
def mapExcept {ε α β : Type} (f : α → Except ε β) : List α → Except ε (List β)
| [] => .ok []
| a :: l =>
  match f a with
  | .error e => .error e
  | .ok b => (mapExcept f l).map (fun bs => b :: bs)

/-- A loop of reads each of which can panic (out-of-bounds slice indexing):
`none` as soon as one read misses, else all reads in order. -/
def mapOption {α β : Type} (f : α → Option β) : List α → Option (List β)
| [] => some []
| a :: l =>
  match f a with
  | none => none
  | some b => (mapOption f l).map (fun bs => b :: bs)

/-- The per-column entry list of `TableIndices::build_for` (src/table.rs lines
51-58) before sorting: `(value, row_index)` for every row, in row order,
failing like the source when a row lacks the column. -/
def columnEntries (rows : List Row) (ci : Nat) : Except String (List ValueInRow) :=
  mapExcept (fun p =>
    match p.2.fields.get? ci with
    | none => .error "row does not have column"
    | some v => .ok ⟨v, p.1⟩) rows.enum

/-- `TableIndices::build_for` (src/table.rs lines 46-69): for every column,
collect `(value, row_position)` over all rows and sort by value with the
stable `sort_by`; `List.insertionSort` is a stable sort, and a stable sort's
output is determined by the comparator and the input order, so it yields the
same list as the source's sort. -/
def TableIndices.build_for (t : Table) : Except String TableIndices :=
  (mapExcept (fun p =>
    (columnEntries t.rows p.1).map (fun entries =>
      (p.2.name, Index.mk p.2.name (List.insertionSort entryLe entries)))) t.columns.enum).map
    TableIndices.mk

/-- Modelled from the spec: `IndexedTable` is exported from table.rs
(src/lib.rs line 6) but its definition is missing from the provided sources;
per spec §3/§4.4 it pairs the loaded table with its indices
(`table.underlying`, `table.indices` in src/query_engine.rs). -/
structure IndexedTable where
  underlying : Table
  indices : TableIndices
deriving DecidableEq

/-- Modelled from the spec: `Table::build_indices` (src/main.rs line 30) is
missing from the provided table.rs; per spec §3 ("built once, covering every
column, from a fully loaded Table") it runs `TableIndices::build_for` and
pairs the result with the table. -/
def Table.build_indices (t : Table) : Except String IndexedTable :=
  (TableIndices.build_for t).map (IndexedTable.mk t)

/-- `ColumnNotFound` (spec §7): the requested name plus the existing column
names in declaration order. -/
inductive QueryError where
| ColumnNotFound (name : String) (available_columns : List String)
deriving DecidableEq

/-- Modelled from the spec: `Table::find_column_position` (called from
src/query_engine.rs lines 46 and 121) is missing from the provided table.rs;
per spec §4.2 it returns the named column's position and fails with
`ColumnNotFound { name, available_columns }` (declaration order) when the
name is absent. -/
def Table.find_column_position (t : Table) (name : String) : Except QueryError Nat :=
  match t.columns.findIdx? (fun c => c.name == name) with
  | some i => .ok i
  | none => .error (.ColumnNotFound name (t.columns.map (·.name)))

/-- `ResultSetRow` (src/query_engine.rs lines 8-11). -/
structure ResultSetRow where
  fields : List Value
deriving DecidableEq

/-- `ResultSet` (src/query_engine.rs lines 21-24). -/
structure ResultSet where
  rows : List ResultSetRow
deriving DecidableEq

/-- Outcome of running engine code: a value, a typed error (Rust `Err`), or a
panic (`aborted`: integer underflow in a debug build, out-of-bounds slice
indexing in any build). -/
inductive RunResult (α : Type) where
| aborted
| failed (e : QueryError)
| ok (a : α)
deriving DecidableEq

/-- The loop of Rust's `slice::binary_search_by` on `xs[left..right]`:
`mid = left + size / 2` where `size = right - left`; `Less` moves `left` past
`mid`, `Greater` moves `right` down to `mid`, `Equal` returns `Ok(mid)`, and
exhaustion returns `Err(left)`.  `fuel` is the loop variant `right - left`
(strictly shrinking); every call supplies `fuel ≥ right - left`, so the `0`
case coincides with the loop exit `left ≥ right`. -/
def binarySearchLoop {α : Type} (f : α → Ordering) (xs : List α) (d : α) :
    Nat → Nat → Nat → Except Nat Nat
| 0, left, _ => .error left
| fuel + 1, left, right =>
  if left < right then
    match f (xs.getD (left + (right - left) / 2) d) with
    | .lt => binarySearchLoop f xs d fuel (left + (right - left) / 2 + 1) right
    | .gt => binarySearchLoop f xs d fuel left (left + (right - left) / 2)
    | .eq => .ok (left + (right - left) / 2)
  else .error left

/-- `slice::binary_search_by` over the whole slice. -/
def binarySearchBy {α : Type} (f : α → Ordering) (xs : List α) (d : α) : Except Nat Nat :=
  binarySearchLoop f xs d xs.length 0 xs.length

/-- Default entry backing `List.getD`; it stands behind in-bounds Rust slice
reads only, so it is never consulted. -/
def dfltEntry : ValueInRow := ⟨.Text "", 0⟩

/-- `filter_using_index_greater_than` (src/query_engine.rs lines 73-95):
binary-search with the comparator `if *e.value <= *value { Less } else
{ Greater }` — it never answers `Equal`, so the search ends in `Err(idx)`
at the first strictly greater entry — then return the row indices of the
index suffix from that point, or `[]` when `idx` is past the end. -/
def filter_using_index_greater_than (value : Value) (entries : List ValueInRow) :
    List Nat :=
  let found_idx :=
    match binarySearchBy
        (fun e => if Value.cmp e.value value ≠ .gt then .lt else .gt) entries dfltEntry with
    | .error idx => if idx < entries.length then some idx else none
    | .ok _ => none
  match found_idx with
  | some first_idx_greater_than => (entries.drop first_idx_greater_than).map (·.row_index)
  | none => []

/-- The leftward expansion loop of `filter_using_index_equal_to`
(src/query_engine.rs lines 102-106): while `current_idx > 0`, read
`sorted_column_values[current_idx]` (`none` models the out-of-bounds panic),
push the position if its value still equals the probe, and step left.  Note
the guard: index position `0` is never examined. -/
def expandLeft (value : Value) (entries : List ValueInRow) :
    Nat → List Nat → Option (List Nat)
| 0, acc => some acc
| current + 1, acc =>
  match entries.get? (current + 1) with
  | none => none
  | some e =>
    if e.value = value then expandLeft value entries current (acc ++ [current + 1])
    else some acc

/-- The rightward expansion loop (src/query_engine.rs lines 107-111): while
`current_idx < len` and the entry's value matches, push and step right.
`fuel` is the loop variant `len - current_idx`; every call supplies exactly
that, so the `0` case coincides with the loop exit `current_idx ≥ len`. -/
def expandRight (value : Value) (entries : List ValueInRow) :
    Nat → Nat → List Nat → List Nat
| 0, _, acc => acc
| fuel + 1, current, acc =>
  match entries.get? current with
  | none => acc
  | some e =>
    if e.value = value then expandRight value entries fuel (current + 1) (acc ++ [current])
    else acc

/-- `filter_using_index_equal_to` (src/query_engine.rs lines 97-117):
`binary_search_by_key` for the value (`Err` leaves `row_ids` empty); on a hit
at `found_idx`, start the left expansion at the `usize` value of
`found_idx - 1` — for `found_idx = 0` that wraps to `2 ^ 64 - 1` (in a debug
build the subtraction itself panics; in release the subsequent index read is
out of bounds — either way the call panics, modelled `none`) — expand right
from `found_idx + 1`, and map the collected index positions to row indices. -/
def filter_using_index_equal_to (value : Value) (entries : List ValueInRow) :
    Option (List Nat) :=
  match binarySearchBy (fun e => Value.cmp e.value value) entries dfltEntry with
  | .error _ => some []
  | .ok found_idx =>
    match expandLeft value entries ((found_idx + (2 ^ 64 - 1)) % 2 ^ 64) [found_idx] with
    | none => none
    | some all_matching_idx =>
      let all_matching_idx :=
        expandRight value entries (entries.length - (found_idx + 1)) (found_idx + 1)
          all_matching_idx
      some (all_matching_idx.map (fun i => (entries.getD i dfltEntry).row_index))

/-- `filter_using_index` (src/query_engine.rs lines 62-71). -/
def filter_using_index (filter : Filter) (index : Index) : RunResult (List Nat) :=
  match filter.filter_type with
  | .Greater => .ok (filter_using_index_greater_than filter.value index.sorted_column_values)
  | .Equal =>
    match filter_using_index_equal_to filter.value index.sorted_column_values with
    | none => .aborted
    | some row_ids => .ok row_ids

/-- Whether a row's field matches a filter (src/query_engine.rs lines 123-126):
`>` via `PartialOrd` on `Value`, `=` via structural equality. -/
def matchesFilter (filter : Filter) (v : Value) : Bool :=
  match filter.filter_type with
  | .Greater => decide (Value.cmp v filter.value = .gt)
  | .Equal => decide (v = filter.value)

/-- `filter_by_scanning` (src/query_engine.rs lines 119-132): resolve the filter
column (typed error when absent), then keep, in table order, the position of
each row whose field matches; reading `row.fields[column_position]` out of
bounds is a panic. -/
def filter_by_scanning (t : IndexedTable) (filter : Filter) : RunResult (List Nat) :=
  match t.underlying.find_column_position filter.column_name with
  | .error e => .failed e
  | .ok column_position =>
    match mapOption (fun p =>
        (p.2.fields.get? column_position).map (fun v => (p.1, v)))
        t.underlying.rows.enum with
    | none => .aborted
    | some positioned => .ok ((positioned.filter (fun p => matchesFilter filter p.2)).map (·.1))

/-- `apply_filter` (src/query_engine.rs lines 35-41). -/
def apply_filter (t : IndexedTable) (filter : Filter) : RunResult (List Nat) :=
  match lookupIndex t.indices.column_indices filter.column_name with
  | some column_index => filter_using_index filter column_index
  | none => filter_by_scanning t filter

/-- `project_rows` (src/query_engine.rs lines 43-60): resolve every requested
column once (typed error on the first absent name), then for each selected row
position, in the order produced by row selection, build the output row of the
requested fields in requested order; `rows[row_id]` or
`fields[column_position]` out of bounds is a panic. -/
def project_rows (t : IndexedTable) (row_ids : List Nat) (column_names : List String) :
    RunResult ResultSet :=
  match mapExcept t.underlying.find_column_position column_names with
  | .error e => .failed e
  | .ok column_positions =>
    match mapOption (fun row_id =>
        (t.underlying.rows.get? row_id).bind (fun row =>
          mapOption (fun p => row.fields.get? p) column_positions)) row_ids with
    | none => .aborted
    | some projected => .ok ⟨projected.map ResultSetRow.mk⟩

/-- `execute` (src/query_engine.rs lines 26-33): select row positions — all of
`0..row_count` when there is no filter, else `apply_filter` — then project. -/
def execute (query : Query) (t : IndexedTable) : RunResult ResultSet :=
  match query.filter with
  | some filter =>
    match apply_filter t filter with
    | .aborted => .aborted
    | .failed e => .failed e
    | .ok row_ids => project_rows t row_ids query.column_names
  | none => project_rows t (List.range t.underlying.rows.length) query.column_names

/-- The per-query composition the binary runs (src/main.rs lines 29-44): build
the indices once, then execute the query against the indexed table. -/
def runQuery (query : Query) (t : Table) : Except String (RunResult ResultSet) :=
  t.build_indices.map (execute query)

/-! Concrete tables from the repository's test fixtures
(src/query_engine.rs tests), in loaded form: `column2`-style all-digit fields
are `Integer`, the rest `Text`. -/

/-- The three-column fixture of src/query_engine.rs `load_test_table`:
`column1,column2,column3` with rows `(bbb,3,b) (aaa,1,10) (ccc,2,11)
(eee,2,9) (ddd,1,5)`. -/
def fixtureTable : Table :=
  ⟨[⟨"column1", .Text⟩, ⟨"column2", .Integer⟩, ⟨"column3", .Text⟩],
   [⟨[.Text "bbb", .Integer 3, .Text "b"]⟩,
    ⟨[.Text "aaa", .Integer 1, .Integer 10]⟩,
    ⟨[.Text "ccc", .Integer 2, .Integer 11]⟩,
    ⟨[.Text "eee", .Integer 2, .Integer 9]⟩,
    ⟨[.Text "ddd", .Integer 1, .Integer 5]⟩]⟩

/-- The duplicate-key fixture of src/query_engine.rs
`should_find_all_rows_when_using_equal_filter`: `column1,column2` with rows
`(a,1) (b,2) (c,3) (d,3) (e,3) (f,4)`. -/
def dupTable : Table :=
  ⟨[⟨"column1", .Text⟩, ⟨"column2", .Integer⟩],
   [⟨[.Text "a", .Integer 1]⟩, ⟨[.Text "b", .Integer 2]⟩, ⟨[.Text "c", .Integer 3]⟩,
    ⟨[.Text "d", .Integer 3]⟩, ⟨[.Text "e", .Integer 3]⟩, ⟨[.Text "f", .Integer 4]⟩]⟩

/-- A two-row table whose `column2` value `1` occupies index positions 0 and 1
of the sorted `column2` index: rows `(a,1) (b,1)`. -/
def pairTable : Table :=
  ⟨[⟨"column1", .Text⟩, ⟨"column2", .Integer⟩],
   [⟨[.Text "a", .Integer 1]⟩, ⟨[.Text "b", .Integer 1]⟩]⟩

/-- A one-row table: the sorted `column2` index has its only matching entry at
index position 0, so an Equal filter's binary search answers `Ok(0)`. -/
def singleTable : Table :=
  ⟨[⟨"column1", .Text⟩, ⟨"column2", .Integer⟩], [⟨[.Text "a", .Integer 1]⟩]⟩


/-! Specification-side descriptions of the data the engine manipulates,
used to state the theorems, plus the supporting lemmas. -/

/-- The table's column names in declaration order. -/
def colNames (t : Table) : List String := t.columns.map (·.name)

/-- Position of the first column with the given name (meaningful when the name
occurs in `colNames`). -/
def columnPos (t : Table) (name : String) : Nat :=
  (t.columns.findIdx? (fun c => c.name == name)).getD 0

/-- The field of row `ri` at column position `ci`. -/
def fieldAt (t : Table) (ri ci : Nat) : Value :=
  (t.rows.getD ri ⟨[]⟩).fields.getD ci (.Text "")

/-- The unsorted `(value, row_position)` entries of column `ci`: one per row,
in row order. -/
def entriesOf (t : Table) (ci : Nat) : List ValueInRow :=
  t.rows.enum.map (fun p => ⟨p.2.fields.getD ci (.Text ""), p.1⟩)

/-- The sorted entries the built index holds for column `ci`. -/
def sortedEntries (t : Table) (ci : Nat) : List ValueInRow :=
  List.insertionSort entryLe (entriesOf t ci)

/-- The table invariant (spec §3): every row has one field per column. -/
def Table.wellFormed (t : Table) : Prop :=
  ∀ row ∈ t.rows, row.fields.length = t.columns.length

instance (t : Table) : Decidable t.wellFormed := by
  unfold Table.wellFormed; infer_instance

theorem mapExcept_ok_of_forall {ε α β : Type} (f : α → Except ε β) (g : α → β) :
    ∀ (l : List α), (∀ a ∈ l, f a = .ok (g a)) → mapExcept f l = .ok (l.map g)
| [], _ => rfl
| a :: l, h => by
  have ha := h a (List.mem_cons_self a l)
  have hrec := mapExcept_ok_of_forall f g l fun x hx => h x (List.mem_cons_of_mem a hx)
  simp [mapExcept, ha, hrec, Except.map]

theorem mapOption_some_of_forall {α β : Type} (f : α → Option β) (g : α → β) :
    ∀ (l : List α), (∀ a ∈ l, f a = some (g a)) → mapOption f l = some (l.map g)
| [], _ => rfl
| a :: l, h => by
  have ha := h a (List.mem_cons_self a l)
  have hrec := mapOption_some_of_forall f g l fun x hx => h x (List.mem_cons_of_mem a hx)
  simp [mapOption, ha, hrec]

theorem mapExcept_error_of_find {ε α β : Type} (f : α → Except ε β) (p : α → Bool)
    (e : α → ε) (hOk : ∀ a, p a = false → ∃ b, f a = .ok b)
    (hErr : ∀ a, p a = true → f a = .error (e a)) :
    ∀ (l : List α) (x : α), l.find? p = some x → mapExcept f l = .error (e x)
| [], x => by simp
| a :: l, x => by
  intro hfind
  by_cases hpa : p a = true
  · rw [List.find?_cons_of_pos _ hpa] at hfind
    obtain rfl : a = x := by simpa using hfind
    simp [mapExcept, hErr a hpa]
  · rw [List.find?_cons_of_neg _ hpa] at hfind
    obtain ⟨b, hb⟩ := hOk a (by simpa using hpa)
    have hrec := mapExcept_error_of_find f p e hOk hErr l x hfind
    simp [mapExcept, hb, hrec, Except.map]

/-- Default column used only for `List.getD` statements. -/
def dCol : Column := ⟨"", .Text⟩

theorem findIdx?_none_of_not_mem (name : String) :
    ∀ (cols : List Column) (start : Nat), name ∉ cols.map (·.name) →
      List.findIdx? (fun c => c.name == name) cols start = none
| [], _, _ => rfl
| c :: rest, start, h => by
  have hc : ¬ (c.name = name) := fun hc => h (by simp [hc])
  simp only [List.findIdx?]
  rw [if_neg (by simpa using hc)]
  exact findIdx?_none_of_not_mem name rest (start + 1) (fun hm => h (by simp [hm]))

theorem findIdx?_some_of_mem (name : String) :
    ∀ (cols : List Column) (start : Nat), name ∈ cols.map (·.name) →
      ∃ j, List.findIdx? (fun c => c.name == name) cols start = some (start + j) ∧
        j < cols.length ∧ (cols.getD j dCol).name = name
| [], _, h => by simp at h
| c :: rest, start, h => by
  by_cases hc : c.name = name
  · refine ⟨0, ?_, by simp, by simpa using hc⟩
    simp only [List.findIdx?]
    rw [if_pos (by simpa using hc)]
    simp
  · have hm : name ∈ rest.map (·.name) := by
      rcases (by simpa using h : name = c.name ∨ ∃ a ∈ rest, a.name = name) with h' | ⟨a, ha, h'⟩
      · exact absurd h'.symm hc
      · simpa using ⟨a, ha, h'⟩
    obtain ⟨j, hj, hlt, hname⟩ := findIdx?_some_of_mem name rest (start + 1) hm
    refine ⟨j + 1, ?_, by simpa using Nat.succ_lt_succ hlt, by simpa using hname⟩
    simp only [List.findIdx?]
    rw [if_neg (by simpa using hc), hj]
    congr 1
    omega

theorem find_column_position_error (t : Table) (name : String) (h : name ∉ colNames t) :
    t.find_column_position name = .error (.ColumnNotFound name (colNames t)) := by
  unfold Table.find_column_position
  rw [findIdx?_none_of_not_mem name t.columns 0 h]
  rfl

theorem columnPos_spec (t : Table) (name : String) (h : name ∈ colNames t) :
    t.find_column_position name = .ok (columnPos t name) ∧
    columnPos t name < t.columns.length ∧
    (t.columns.getD (columnPos t name) dCol).name = name := by
  obtain ⟨j, hj, hlt, hname⟩ := findIdx?_some_of_mem name t.columns 0 h
  rw [Nat.zero_add] at hj
  unfold Table.find_column_position columnPos
  rw [hj]
  exact ⟨rfl, hlt, hname⟩

theorem enumFrom_fst_lt {α : Type} : ∀ (l : List α) (n : Nat),
    (List.enumFrom n l).Pairwise (fun p q => p.1 < q.1)
| [], _ => by simp
| a :: l, n => by
  simp only [List.enumFrom]
  rw [List.pairwise_cons]
  refine ⟨?_, enumFrom_fst_lt l (n + 1)⟩
  intro q hq
  have hm := List.mem_enumFrom (show (q.1, q.2) ∈ List.enumFrom (n + 1) l by simpa using hq)
  exact Nat.lt_of_lt_of_le (Nat.lt_succ_self n) hm.1

theorem entriesOf_row_lt (t : Table) (ci : Nat) :
    (entriesOf t ci).Pairwise (fun a b => a.row_index < b.row_index) := by
  unfold entriesOf
  rw [List.pairwise_map]
  exact enumFrom_fst_lt t.rows 0

/-- Sorted by value and, among equal values, ascending original row position:
the shape a stable by-value sort produces from entries listed in row order. -/
def entrySLe (x y : ValueInRow) : Prop :=
  Value.cmp x.value y.value = .lt ∨
    (Value.cmp x.value y.value = .eq ∧ x.row_index < y.row_index)

theorem entrySLe.le {x y : ValueInRow} (h : entrySLe x y) : entryLe x y := by
  unfold entryLe
  rcases h with h | ⟨h, _⟩ <;> simp [h]

theorem entrySLe_of_le_lt {a z : ValueInRow} (hle : entryLe a z)
    (hrow : a.row_index < z.row_index) : entrySLe a z := by
  rcases (ordering_ne_gt_iff _).mp hle with h | h
  · exact Or.inl h
  · exact Or.inr ⟨h, hrow⟩

theorem orderedInsert_SLe (a : ValueInRow) :
    ∀ (m : List ValueInRow), m.Pairwise entrySLe →
      (∀ y ∈ m, a.row_index < y.row_index) →
      (List.orderedInsert entryLe a m).Pairwise entrySLe
| [], _, _ => by simp
| y :: ys, hm, ha => by
  rw [List.orderedInsert]
  by_cases hay : entryLe a y
  · rw [if_pos hay, List.pairwise_cons]
    refine ⟨?_, hm⟩
    intro z hz
    rcases List.mem_cons.mp hz with rfl | hz'
    · exact entrySLe_of_le_lt hay (ha z (List.mem_cons_self _ _))
    · have hyz : entrySLe y z := (List.pairwise_cons.mp hm).1 z hz'
      have haz : entryLe a z := Value.cmp_trans_le hay hyz.le
      exact entrySLe_of_le_lt haz (ha z (List.mem_cons_of_mem _ hz'))
  · rw [if_neg hay, List.pairwise_cons]
    constructor
    · intro w hw
      have hw' : w ∈ a :: ys := (List.perm_orderedInsert entryLe a ys).mem_iff.mp hw
      rcases List.mem_cons.mp hw' with rfl | hw''
      · have hgt : Value.cmp w.value y.value = .gt := by
          by_contra hc
          exact hay hc
        have hlt : Value.cmp y.value w.value = .lt := by
          have hs := Value.cmp_swap y.value w.value
          rw [hgt] at hs
          exact hs
        exact Or.inl hlt
      · exact (List.pairwise_cons.mp hm).1 w hw''
    · exact orderedInsert_SLe a ys (List.pairwise_cons.mp hm).2
        (fun z hz => ha z (List.mem_cons_of_mem _ hz))

theorem insertionSort_SLe :
    ∀ (l : List ValueInRow), l.Pairwise (fun a b => a.row_index < b.row_index) →
      (List.insertionSort entryLe l).Pairwise entrySLe
| [], _ => by simp
| a :: l, h => by
  rw [List.insertionSort]
  apply orderedInsert_SLe
  · exact insertionSort_SLe l (List.pairwise_cons.mp h).2
  · intro y hy
    exact (List.pairwise_cons.mp h).1 y ((List.perm_insertionSort entryLe l).mem_iff.mp hy)

theorem sortedEntries_SLe (t : Table) (ci : Nat) :
    (sortedEntries t ci).Pairwise entrySLe :=
  insertionSort_SLe _ (entriesOf_row_lt t ci)

theorem sortedEntries_sorted (t : Table) (ci : Nat) :
    (sortedEntries t ci).Pairwise entryLe :=
  (sortedEntries_SLe t ci).imp entrySLe.le

theorem sortedEntries_perm (t : Table) (ci : Nat) :
    (sortedEntries t ci).Perm (entriesOf t ci) :=
  List.perm_insertionSort entryLe (entriesOf t ci)

theorem columnEntries_ok (t : Table) (hw : t.wellFormed) (ci : Nat)
    (hci : ci < t.columns.length) :
    columnEntries t.rows ci = .ok (entriesOf t ci) := by
  unfold columnEntries entriesOf
  apply mapExcept_ok_of_forall
  intro p hp
  have hpe := List.mem_enumFrom (show (p.1, p.2) ∈ List.enumFrom 0 t.rows by simpa using hp)
  have hplen : p.1 < t.rows.length := by
    have := hpe.2.1
    omega
  have hmem : p.2 ∈ t.rows := by
    have h2 : p.2 = t.rows[p.1] := by simpa using hpe.2.2
    rw [h2]
    exact List.getElem_mem hplen
  have hlen : p.2.fields.length = t.columns.length := hw p.2 hmem
  have hget : p.2.fields.get? ci = some (p.2.fields.getD ci (.Text "")) := by
    rw [List.get?_eq_getElem?, List.getD_eq_getElem?_getD,
      List.getElem?_eq_getElem (by omega)]
    rfl
  rw [hget]

/-- What `build_for` produces on a well-formed table: for each column, in
declaration order, the pair of the column's name and its sorted index. -/
def builtIndices (t : Table) : List (String × Index) :=
  t.columns.enum.map (fun p => (p.2.name, ⟨p.2.name, sortedEntries t p.1⟩))

theorem build_for_ok (t : Table) (hw : t.wellFormed) :
    TableIndices.build_for t = .ok ⟨builtIndices t⟩ := by
  unfold TableIndices.build_for builtIndices
  rw [mapExcept_ok_of_forall _
    (fun p => (p.2.name, Index.mk p.2.name (sortedEntries t p.1))) _ ?_]
  · rfl
  · intro p hp
    have hpe := List.mem_enumFrom (show (p.1, p.2) ∈ List.enumFrom 0 t.columns by simpa using hp)
    have hci : p.1 < t.columns.length := by
      have := hpe.2.1
      omega
    rw [columnEntries_ok t hw p.1 hci]
    rfl

theorem build_indices_ok (t : Table) (hw : t.wellFormed) :
    t.build_indices = .ok ⟨t, ⟨builtIndices t⟩⟩ := by
  unfold Table.build_indices
  rw [build_for_ok t hw]
  rfl

theorem lookupIndex_built (t : Table) (hnd : (colNames t).Nodup) (name : String)
    (hmem : name ∈ colNames t) :
    lookupIndex (builtIndices t) name
      = some ⟨name, sortedEntries t (columnPos t name)⟩ := by
  obtain ⟨_, hlt, hgetname⟩ := columnPos_spec t name hmem
  set cp := columnPos t name with hcpdef
  have hcolname : (t.columns[cp]).name = name := by
    have hgd : t.columns.getD cp dCol = t.columns[cp] := by
      rw [List.getD_eq_getElem?_getD, List.getElem?_eq_getElem hlt]
      rfl
    rw [hgd] at hgetname
    exact hgetname
  have hmem2 : (((t.columns[cp]).name,
      (⟨(t.columns[cp]).name, sortedEntries t cp⟩ : Index)) : String × Index)
        ∈ builtIndices t := by
    unfold builtIndices
    apply List.mem_map.mpr
    have hce : cp < t.columns.enum.length := by
      rw [List.enum_length]
      exact hlt
    refine ⟨(cp, t.columns[cp]), ?_, rfl⟩
    have he : t.columns.enum[cp] = (cp, t.columns[cp]) := List.getElem_enum _ _ _
    rw [← he]
    exact List.getElem_mem _
  have hsome : ((builtIndices t).reverse.find? (fun p => p.1 == name)).isSome := by
    rw [List.find?_isSome]
    exact ⟨_, List.mem_reverse.mpr hmem2, by simp [hcolname]⟩
  obtain ⟨x, hx⟩ := Option.isSome_iff_exists.mp hsome
  have hxmem : x ∈ builtIndices t := List.mem_reverse.mp (List.mem_of_find?_eq_some hx)
  have hxpred : x.1 = name := by simpa using List.find?_some hx
  obtain ⟨p, hp, hgp⟩ := List.mem_map.mp hxmem
  have hpe := List.mem_enumFrom (show (p.1, p.2) ∈ List.enumFrom 0 t.columns by simpa using hp)
  have hplen : p.1 < t.columns.length := by
    have := hpe.2.1
    omega
  have hp2 : p.2 = t.columns[p.1] := by simpa using hpe.2.2
  have hnamej : (t.columns[p.1]).name = name := by
    rw [← hp2]
    rw [← hgp] at hxpred
    simpa using hxpred
  have hjcp : p.1 = cp := by
    by_contra hne
    have hlen1 : p.1 < (colNames t).length := by simpa [colNames] using hplen
    have hlen2 : cp < (colNames t).length := by simpa [colNames] using hlt
    have h1 : (colNames t)[p.1] = name := by
      simp only [colNames, List.getElem_map]
      exact hnamej
    have h2 : (colNames t)[cp] = name := by
      simp only [colNames, List.getElem_map]
      exact hcolname
    exact hne (hnd.getElem_inj_iff.mp (h1.trans h2.symm))
  unfold lookupIndex
  rw [hx, ← hgp]
  simp only [Option.map_some']
  rw [hp2]
  simp only [hjcp]
  rw [hcolname]

/-- C9: on a well-formed table, `TableIndices::build_for` succeeds and gives
every column an index holding exactly one `(value, row_position)` entry per
table row (a permutation of the rows' entries in row order), sorted
non-decreasing by value under `Value.cmp`, and — the sort being stable —
entries with equal values keep ascending original row positions. -/
theorem build_for_sorted_stable_one_entry_per_row
    (t : Table) (hw : t.wellFormed) (ci : Nat) (col : Column)
    (hci : t.columns.get? ci = some col) :
    ∃ ti : TableIndices, TableIndices.build_for t = .ok ti ∧
      ti.column_indices.length = t.columns.length ∧
      ∃ idx : Index, ti.column_indices.get? ci = some (col.name, idx) ∧
        idx.column_name = col.name ∧
        idx.sorted_column_values.Perm (entriesOf t ci) ∧
        idx.sorted_column_values.Pairwise entryLe ∧
        idx.sorted_column_values.Pairwise
          (fun a b => a.value = b.value → a.row_index < b.row_index) := by
  refine ⟨⟨builtIndices t⟩, build_for_ok t hw, ?_,
    ⟨col.name, sortedEntries t ci⟩, ?_, rfl,
    sortedEntries_perm t ci, sortedEntries_sorted t ci, ?_⟩
  · simp [builtIndices, List.enum_length]
  · unfold builtIndices
    rw [List.get?_eq_getElem?, List.getElem?_map, List.getElem?_enum,
      ← List.get?_eq_getElem?, hci]
    rfl
  · refine (sortedEntries_SLe t ci).imp ?_
    intro a b h hv
    rcases h with h | h
    · rw [Value.cmp_eq_eq.mpr hv] at h
      cases h
    · exact h.2

/-- Witness for C9 at the three-column fixture table, column `column2`. -/
theorem build_for_sorted_stable_one_entry_per_row_witness :
    ∃ ti : TableIndices, TableIndices.build_for fixtureTable = .ok ti ∧
      ti.column_indices.length = fixtureTable.columns.length ∧
      ∃ idx : Index,
        ti.column_indices.get? 1 = some (("column2" : String), idx) ∧
        idx.column_name = "column2" ∧
        idx.sorted_column_values.Perm (entriesOf fixtureTable 1) ∧
        idx.sorted_column_values.Pairwise entryLe ∧
        idx.sorted_column_values.Pairwise
          (fun a b => a.value = b.value → a.row_index < b.row_index) :=
  build_for_sorted_stable_one_entry_per_row fixtureTable (by decide) 1
    ⟨"column2", .Integer⟩ (by decide)

theorem binarySearchLoop_partition {α : Type} (P : α → Prop) [DecidablePred P]
    (xs : List α) (d : α) (k : Nat)
    (htrue : ∀ i, i < k → P (xs.getD i d))
    (hfalse : ∀ i, k ≤ i → i < xs.length → ¬ P (xs.getD i d)) :
    ∀ (fuel left right : Nat), left ≤ k → k ≤ right → right ≤ xs.length →
      right - left ≤ fuel →
      binarySearchLoop (fun e => if P e then .lt else .gt) xs d fuel left right = .error k
| 0, left, right => by
  intro h1 h2 h3 h4
  unfold binarySearchLoop
  congr 1
  omega
| fuel + 1, left, right => by
  intro h1 h2 h3 h4
  unfold binarySearchLoop
  by_cases hlr : left < right
  · rw [if_pos hlr]
    have hmidlt : left + (right - left) / 2 < right := by
      have := Nat.div_lt_self (show 0 < right - left by omega) (show 1 < 2 by omega)
      omega
    by_cases hP : P (xs.getD (left + (right - left) / 2) d)
    · rw [if_pos hP]
      show binarySearchLoop _ xs d fuel (left + (right - left) / 2 + 1) right = .error k
      have hmidk : left + (right - left) / 2 < k := by
        by_contra hc
        exact hfalse _ (by omega) (by omega) hP
      exact binarySearchLoop_partition P xs d k htrue hfalse fuel _ right
        (by omega) h2 h3 (by omega)
    · rw [if_neg hP]
      show binarySearchLoop _ xs d fuel left (left + (right - left) / 2) = .error k
      have hmidk : k ≤ left + (right - left) / 2 := by
        by_contra hc
        exact hP (htrue _ (by omega))
      exact binarySearchLoop_partition P xs d k htrue hfalse fuel left _
        h1 (by omega) (by omega) (by omega)
  · rw [if_neg hlr]
    congr 1
    omega

theorem dc_facts {α : Type} (g : α → Bool) (d : α) :
    ∀ (l : List α),
      (∀ i j, i ≤ j → j < l.length → g (l.getD j d) = true → g (l.getD i d) = true) →
      (∀ i, i < l.countP g → g (l.getD i d) = true) ∧
      (∀ i, l.countP g ≤ i → i < l.length → g (l.getD i d) = false) ∧
      l.drop (l.countP g) = l.filter (fun e => !g e)
| [], _ => by simp
| a :: t, hdc => by
  have hdct : ∀ i j, i ≤ j → j < t.length → g (t.getD j d) = true →
      g (t.getD i d) = true := by
    intro i j hij hj hgj
    have := hdc (i + 1) (j + 1) (by omega) (by simpa using Nat.succ_lt_succ hj)
      (by simpa using hgj)
    simpa using this
  obtain ⟨ih1, ih2, ih3⟩ := dc_facts g d t hdct
  by_cases hga : g a = true
  · rw [List.countP_cons_of_pos g t hga]
    refine ⟨?_, ?_, ?_⟩
    · intro i hi
      cases i with
      | zero => simpa using hga
      | succ i' =>
        rw [List.getD_cons_succ]
        exact ih1 i' (by omega)
    · intro i hi hil
      cases i with
      | zero => omega
      | succ i' =>
        rw [List.getD_cons_succ]
        exact ih2 i' (by omega) (by simpa using hil)
    · rw [List.drop_succ_cons, ih3, List.filter_cons_of_neg (by simp [hga])]
  · rw [List.countP_cons_of_neg g t hga]
    have hgaf : g a = false := by simpa using hga
    have ht0 : t.countP g = 0 := by
      rw [List.countP_eq_zero]
      intro x hx hgx
      obtain ⟨j, hj, hxe⟩ := List.mem_iff_getElem.mp hx
      have hgj : g (t.getD j d) = true := by
        rw [List.getD_eq_getElem?_getD, List.getElem?_eq_getElem hj]
        simpa [hxe]
      have h0 := hdc 0 (j + 1) (by omega) (by simpa using Nat.succ_lt_succ hj)
        (by simpa using hgj)
      rw [List.getD_cons_zero] at h0
      exact absurd h0 hga
    rw [ht0]
    refine ⟨?_, ?_, ?_⟩
    · intro i hi
      omega
    · intro i _ hil
      cases i with
      | zero => simpa using hgaf
      | succ i' =>
        rw [List.getD_cons_succ]
        rw [ht0] at ih2
        exact ih2 i' (by omega) (by simpa using hil)
    · rw [List.drop_zero, List.filter_cons_of_pos (by simp [hgaf])]
      congr 1
      exact (List.filter_eq_self.mpr (fun x hx => by
        simpa using List.countP_eq_zero.mp ht0 x hx)).symm

/-- The entries strictly greater than `v` in the sorted index of column `ci`,
in index order. -/
def matchingGreater (t : Table) (ci : Nat) (v : Value) : List ValueInRow :=
  (sortedEntries t ci).filter (fun e => decide (Value.cmp v e.value = .lt))

theorem not_le_eq_lt_swap (v : Value) (e : ValueInRow) :
    (!decide (Value.cmp e.value v ≠ .gt)) = decide (Value.cmp v e.value = .lt) := by
  have hs := Value.cmp_swap v e.value
  rcases h : Value.cmp e.value v <;> rw [h] at hs <;> simp [hs, h, Ordering.swap]

theorem filter_greater_spec (v : Value) (entries : List ValueInRow)
    (hs : entries.Pairwise entryLe) :
    filter_using_index_greater_than v entries
        = (entries.filter (fun e => decide (Value.cmp v e.value = .lt))).map (·.row_index) ∧
    entries.drop (entries.countP (fun e => decide (Value.cmp e.value v ≠ .gt)))
        = entries.filter (fun e => decide (Value.cmp v e.value = .lt)) := by
  have hgetle : ∀ i j (hi : i < entries.length) (hj : j < entries.length), i ≤ j →
      Value.cmp (entries.getD i dfltEntry).value (entries.getD j dfltEntry).value ≠ .gt := by
    intro i j hi hj hij
    rcases Nat.eq_or_lt_of_le hij with rfl | hlt
    · simp [Value.cmp_self]
    · have hr := List.pairwise_iff_getElem.mp hs i j hi hj hlt
      have hgi : entries.getD i dfltEntry = entries[i] := by
        rw [List.getD_eq_getElem?_getD, List.getElem?_eq_getElem hi]
        rfl
      have hgj : entries.getD j dfltEntry = entries[j] := by
        rw [List.getD_eq_getElem?_getD, List.getElem?_eq_getElem hj]
        rfl
      rw [hgi, hgj]
      exact hr
  have hdc : ∀ i j, i ≤ j → j < entries.length →
      (fun e => decide (Value.cmp e.value v ≠ .gt)) (entries.getD j dfltEntry) = true →
      (fun e => decide (Value.cmp e.value v ≠ .gt)) (entries.getD i dfltEntry) = true := by
    intro i j hij hj hgj
    simp only [decide_eq_true_eq] at hgj ⊢
    exact Value.cmp_trans_le (hgetle i j (by omega) hj hij) hgj
  obtain ⟨h1, h2, h3⟩ := dc_facts (fun e => decide (Value.cmp e.value v ≠ .gt)) dfltEntry
    entries hdc
  have hfeq : entries.filter (fun e => !decide (Value.cmp e.value v ≠ .gt))
      = entries.filter (fun e => decide (Value.cmp v e.value = .lt)) :=
    List.filter_congr (fun x _ => not_le_eq_lt_swap v x)
  rw [hfeq] at h3
  set k := entries.countP (fun e => decide (Value.cmp e.value v ≠ .gt)) with hk
  have hbs : binarySearchBy
      (fun e => if Value.cmp e.value v ≠ .gt then .lt else .gt) entries dfltEntry
        = .error k := by
    unfold binarySearchBy
    exact binarySearchLoop_partition (fun e => Value.cmp e.value v ≠ .gt) entries dfltEntry
      k (fun i hi => by simpa using h1 i hi)
      (fun i hik hil => by simpa using h2 i hik hil)
      entries.length 0 entries.length (by omega)
      (by rw [hk]; exact List.countP_le_length _) (Nat.le_refl _) (by omega)
  refine ⟨?_, h3⟩
  unfold filter_using_index_greater_than
  rw [hbs]
  show (match (if k < entries.length then some k else none) with
        | some first_idx_greater_than =>
          (entries.drop first_idx_greater_than).map (fun e : ValueInRow => e.row_index)
        | none => ([] : List Nat)) = _
  by_cases hkl : k < entries.length
  · rw [if_pos hkl]
    show (entries.drop k).map (fun e : ValueInRow => e.row_index) = _
    rw [h3]
  · rw [if_neg hkl]
    have hke : k = entries.length := by
      have := List.countP_le_length (fun e => decide (Value.cmp e.value v ≠ .gt))
        (l := entries)
      omega
    show ([] : List Nat) = _
    rw [← h3, hke, List.drop_length]
    rfl

theorem mem_entriesOf {t : Table} {ci : Nat} {e : ValueInRow} :
    e ∈ entriesOf t ci ↔ ∃ ri, ri < t.rows.length ∧
      e = ⟨fieldAt t ri ci, ri⟩ := by
  constructor
  · intro h
    obtain ⟨p, hp, hpe⟩ := List.mem_map.mp h
    have hm := List.mem_enumFrom (show (p.1, p.2) ∈ List.enumFrom 0 t.rows by simpa using hp)
    have hplen : p.1 < t.rows.length := by
      have := hm.2.1
      omega
    refine ⟨p.1, hplen, ?_⟩
    rw [← hpe]
    have h2 : p.2 = t.rows[p.1] := by simpa using hm.2.2
    have h3 : t.rows.getD p.1 ⟨[]⟩ = t.rows[p.1] := by
      rw [List.getD_eq_getElem?_getD, List.getElem?_eq_getElem hplen]
      rfl
    unfold fieldAt
    rw [h2, h3]
  · rintro ⟨ri, hri, rfl⟩
    apply List.mem_map.mpr
    have hre : ri < t.rows.enum.length := by
      rw [List.enum_length]
      exact hri
    refine ⟨(ri, t.rows[ri]), ?_, ?_⟩
    · have he : t.rows.enum[ri] = (ri, t.rows[ri]) := List.getElem_enum _ _ _
      rw [← he]
      exact List.getElem_mem _
    · have h3 : t.rows.getD ri ⟨[]⟩ = t.rows[ri] := by
        rw [List.getD_eq_getElem?_getD, List.getElem?_eq_getElem hri]
        rfl
      unfold fieldAt
      rw [h3]

theorem fieldAt_eq (t : Table) {i : Nat} (hi : i < t.rows.length) (p : Nat) :
    fieldAt t i p = (t.rows[i]).fields.getD p (.Text "") := by
  unfold fieldAt
  congr 1
  rw [List.getD_eq_getElem?_getD, List.getElem?_eq_getElem hi]
  rfl

theorem project_rows_ok (t : Table) (hw : t.wellFormed)
    (ti : TableIndices) (cols : List String) (hcols : ∀ x ∈ cols, x ∈ colNames t)
    (row_ids : List Nat) (hids : ∀ i ∈ row_ids, i < t.rows.length) :
    project_rows ⟨t, ti⟩ row_ids cols
      = .ok ⟨(row_ids.map
          (fun i => cols.map (fun x => fieldAt t i (columnPos t x)))).map
            ResultSetRow.mk⟩ := by
  have hpos : mapExcept t.find_column_position cols
      = .ok (cols.map (columnPos t)) :=
    mapExcept_ok_of_forall _ _ _ (fun x hx => (columnPos_spec t x (hcols x hx)).1)
  have hrows : mapOption (fun row_id => (t.rows.get? row_id).bind (fun row =>
        mapOption (fun p => row.fields.get? p) (cols.map (columnPos t)))) row_ids
      = some (row_ids.map (fun i => cols.map (fun x => fieldAt t i (columnPos t x)))) := by
    apply mapOption_some_of_forall
    intro i hi
    have hil := hids i hi
    have hrg : t.rows.get? i = some (t.rows[i]) := by
      rw [List.get?_eq_getElem?, List.getElem?_eq_getElem hil]
    rw [hrg]
    show mapOption (fun p => (t.rows[i]).fields.get? p) (cols.map (columnPos t))
      = _
    rw [mapOption_some_of_forall _
      (fun p => (t.rows[i]).fields.getD p (.Text "")) _ ?_]
    · rw [List.map_map]
      have hfun : ((fun p => (t.rows[i]).fields.getD p (.Text "")) ∘ columnPos t)
          = fun x => fieldAt t i (columnPos t x) := by
        funext x
        show (t.rows[i]).fields.getD (columnPos t x) (.Text "")
          = fieldAt t i (columnPos t x)
        rw [fieldAt_eq t hil]
      rw [hfun]
    · intro p hp
      obtain ⟨x, hx, rfl⟩ := List.mem_map.mp hp
      have hpl : columnPos t x < t.columns.length := (columnPos_spec t x (hcols x hx)).2.1
      have hflen : (t.rows[i]).fields.length = t.columns.length :=
        hw _ (List.getElem_mem hil)
      show (t.rows[i]).fields.get? (columnPos t x)
        = some ((t.rows[i]).fields.getD (columnPos t x) (.Text ""))
      rw [List.get?_eq_getElem?, List.getD_eq_getElem?_getD,
        List.getElem?_eq_getElem (by omega)]
      rfl
  unfold project_rows
  show (match mapExcept t.find_column_position cols with
        | .error e => RunResult.failed e
        | .ok column_positions =>
          match mapOption (fun row_id => (t.rows.get? row_id).bind (fun row =>
              mapOption (fun p => row.fields.get? p) column_positions)) row_ids with
          | none => RunResult.aborted
          | some projected =>
            RunResult.ok (ResultSet.mk (projected.map ResultSetRow.mk))) = _
  rw [hpos]
  show (match mapOption (fun row_id => (t.rows.get? row_id).bind (fun row =>
        mapOption (fun p => row.fields.get? p) (cols.map (columnPos t)))) row_ids with
      | none => RunResult.aborted
      | some projected =>
        RunResult.ok (ResultSet.mk (projected.map ResultSetRow.mk))) = _
  rw [hrows]

theorem apply_filter_greater_ok (t : Table) (hnd : (colNames t).Nodup)
    (c : String) (hc : c ∈ colNames t) (v : Value) :
    apply_filter ⟨t, ⟨builtIndices t⟩⟩ ⟨c, v, .Greater⟩
      = .ok ((matchingGreater t (columnPos t c) v).map
          (fun e : ValueInRow => e.row_index)) := by
  have hfs := filter_greater_spec v (sortedEntries t (columnPos t c))
    (sortedEntries_sorted t (columnPos t c))
  unfold apply_filter
  show (match lookupIndex (builtIndices t) c with
        | some column_index => filter_using_index ⟨c, v, .Greater⟩ column_index
        | none => filter_by_scanning ⟨t, ⟨builtIndices t⟩⟩ ⟨c, v, .Greater⟩) = _
  rw [lookupIndex_built t hnd c hc]
  show filter_using_index ⟨c, v, .Greater⟩ ⟨c, sortedEntries t (columnPos t c)⟩ = _
  unfold filter_using_index
  show RunResult.ok
    (filter_using_index_greater_than v (sortedEntries t (columnPos t c))) = _
  rw [hfs.1]
  rfl

/-- C2: for every well-formed table with distinct column names, a Greater
filter on an existing column `c` and a projection of existing columns,
`execute` succeeds and returns, in index order, exactly the rows whose
`c`-value compares strictly greater than the filter value: the selected
entries are the suffix of the sorted index from the first strictly greater
entry (the drop/countP conjunct; empty when nothing exceeds the value), and a
row position is selected iff its `c`-field compares strictly greater.  On the
source fixture, `PROJECT column1, column2 FILTER column1 > "bbb"` yields
`[(ccc,2), (ddd,1), (eee,2)]` in that order. -/
theorem greater_filter_returns_exactly_strictly_greater_rows
    (t : Table) (hw : t.wellFormed) (hnd : (colNames t).Nodup)
    (c : String) (hc : c ∈ colNames t) (v : Value)
    (cols : List String) (hcols : ∀ x ∈ cols, x ∈ colNames t) :
    runQuery ⟨cols, some ⟨c, v, .Greater⟩⟩ t
      = .ok (.ok ⟨(matchingGreater t (columnPos t c) v).map
          (fun e => ⟨cols.map (fun x => fieldAt t e.row_index (columnPos t x))⟩)⟩) ∧
    matchingGreater t (columnPos t c) v
      = (sortedEntries t (columnPos t c)).drop
          ((sortedEntries t (columnPos t c)).countP
            (fun e => decide (Value.cmp e.value v ≠ .gt))) ∧
    (∀ i : Nat, (∃ e ∈ matchingGreater t (columnPos t c) v, e.row_index = i)
        ↔ i < t.rows.length ∧ Value.cmp v (fieldAt t i (columnPos t c)) = .lt) ∧
    runQuery ⟨["column1", "column2"], some ⟨"column1", .Text "bbb", .Greater⟩⟩ fixtureTable
      = .ok (.ok ⟨[⟨[.Text "ccc", .Integer 2]⟩, ⟨[.Text "ddd", .Integer 1]⟩,
                   ⟨[.Text "eee", .Integer 2]⟩]⟩) := by
  have hperm := sortedEntries_perm t (columnPos t c)
  have hfs := filter_greater_spec v (sortedEntries t (columnPos t c))
    (sortedEntries_sorted t (columnPos t c))
  have hids : ∀ i ∈ (matchingGreater t (columnPos t c) v).map
      (fun e : ValueInRow => e.row_index), i < t.rows.length := by
    intro i hi
    obtain ⟨e, he, rfl⟩ := List.mem_map.mp hi
    have he2 : e ∈ sortedEntries t (columnPos t c) := (List.mem_filter.mp he).1
    obtain ⟨ri, hri, rfl⟩ := mem_entriesOf.mp (hperm.mem_iff.mp he2)
    exact hri
  refine ⟨?_, hfs.2.symm, ?_, by decide⟩
  · unfold runQuery
    rw [build_indices_ok t hw]
    show Except.ok (execute ⟨cols, some ⟨c, v, .Greater⟩⟩ ⟨t, ⟨builtIndices t⟩⟩) = _
    congr 1
    have haf := apply_filter_greater_ok t hnd c hc v
    unfold execute
    show (match apply_filter ⟨t, ⟨builtIndices t⟩⟩ ⟨c, v, .Greater⟩ with
          | .aborted => RunResult.aborted
          | .failed e => RunResult.failed e
          | .ok row_ids => project_rows ⟨t, ⟨builtIndices t⟩⟩ row_ids cols) = _
    rw [haf]
    show project_rows ⟨t, ⟨builtIndices t⟩⟩
      ((matchingGreater t (columnPos t c) v).map (fun e : ValueInRow => e.row_index))
      cols = _
    rw [project_rows_ok t hw _ cols hcols _ hids, List.map_map, List.map_map]
    rfl
  · intro i
    constructor
    · rintro ⟨e, he, rfl⟩
      have hm := List.mem_filter.mp he
      obtain ⟨ri, hri, rfl⟩ := mem_entriesOf.mp (hperm.mem_iff.mp hm.1)
      exact ⟨hri, by simpa using hm.2⟩
    · rintro ⟨hi, hlt⟩
      refine ⟨⟨fieldAt t i (columnPos t c), i⟩, ?_, rfl⟩
      apply List.mem_filter.mpr
      exact ⟨hperm.mem_iff.mpr (mem_entriesOf.mpr ⟨i, hi, rfl⟩), by simpa using hlt⟩

/-- Witness for C2's hypotheses at the source fixture table and query. -/
theorem greater_filter_returns_exactly_strictly_greater_rows_witness :
    runQuery ⟨["column1", "column2"],
        some ⟨"column1", .Text "bbb", .Greater⟩⟩ fixtureTable
      = .ok (.ok ⟨(matchingGreater fixtureTable (columnPos fixtureTable "column1")
          (.Text "bbb")).map
          (fun e => ⟨["column1", "column2"].map
            (fun x => fieldAt fixtureTable e.row_index (columnPos fixtureTable x))⟩)⟩) :=
  (greater_filter_returns_exactly_strictly_greater_rows fixtureTable (by decide)
    (by decide) "column1" (by decide) (.Text "bbb") ["column1", "column2"] (by decide)).1

theorem lookupIndex_none (t : Table) (name : String) (h : name ∉ colNames t) :
    lookupIndex (builtIndices t) name = none := by
  unfold lookupIndex
  rw [List.find?_eq_none.mpr ?_]
  · rfl
  · intro x hx hpred
    obtain ⟨p, hp, hgp⟩ := List.mem_map.mp (List.mem_reverse.mp hx)
    have hpe := List.mem_enumFrom
      (show (p.1, p.2) ∈ List.enumFrom 0 t.columns by simpa using hp)
    have hplen : p.1 < t.columns.length := by
      have := hpe.2.1
      omega
    have hx1 : x.1 = p.2.name := by rw [← hgp]
    have hname : p.2.name = name := by
      have : (x.1 == name) = true := hpred
      rw [hx1] at this
      simpa using this
    apply h
    have hp2 : p.2 = t.columns[p.1] := by simpa using hpe.2.2
    rw [← hname, hp2]
    unfold colNames
    rw [List.mem_map]
    exact ⟨_, List.getElem_mem hplen, rfl⟩

/-- C6: on a well-formed table, a query with no filter clause whose projection
columns all exist returns one output row per table row, in original table
order (row positions `0..row_count`), each output row holding exactly the
requested columns' values in the requested order. -/
theorem no_filter_returns_all_rows_in_order
    (t : Table) (hw : t.wellFormed)
    (cols : List String) (hcols : ∀ x ∈ cols, x ∈ colNames t) :
    runQuery ⟨cols, none⟩ t
      = .ok (.ok ⟨(List.range t.rows.length).map
          (fun i => ⟨cols.map (fun x => fieldAt t i (columnPos t x))⟩)⟩) := by
  unfold runQuery
  rw [build_indices_ok t hw]
  show Except.ok (execute ⟨cols, none⟩ ⟨t, ⟨builtIndices t⟩⟩) = _
  congr 1
  unfold execute
  show project_rows ⟨t, ⟨builtIndices t⟩⟩ (List.range t.rows.length) cols = _
  rw [project_rows_ok t hw _ cols hcols _ (fun i hi => List.mem_range.mp hi),
    List.map_map]
  rfl

/-- Witness for C6's hypotheses at the source fixture table. -/
theorem no_filter_returns_all_rows_in_order_witness :
    runQuery ⟨["column1", "column2"], none⟩ fixtureTable
      = .ok (.ok ⟨(List.range fixtureTable.rows.length).map
          (fun i => ⟨["column1", "column2"].map
            (fun x => fieldAt fixtureTable i (columnPos fixtureTable x))⟩)⟩) :=
  no_filter_returns_all_rows_in_order fixtureTable (by decide)
    ["column1", "column2"] (by decide)

/-- C7 amended: provided row selection does not hit the Equal-filter panic of
C4, a query referencing an absent column fails with `ColumnNotFound`, naming
the offending column and listing the existing column names in declaration
order, with no partial results: (1) a filter on an absent column fails naming
the filter column (row selection runs before projection, so it takes
precedence); (2) with no filter, an absent projection column fails naming the
first absent one; (3) likewise under a Greater filter on an existing column;
(4) likewise under an Equal filter whose row selection completes without
panicking — that is, whenever `apply_filter` answers `.ok` (a binary-search
miss, or a hit whose expansion stays in bounds). -/
theorem column_not_found_cases (t : Table) (hw : t.wellFormed) :
    (∀ (cols : List String) (fc : String) (v : Value) (ft : FilterType),
      fc ∉ colNames t →
      runQuery ⟨cols, some ⟨fc, v, ft⟩⟩ t
        = .ok (.failed (.ColumnNotFound fc (colNames t)))) ∧
    (∀ (cols : List String) (x : String),
      cols.find? (fun y => !decide (y ∈ colNames t)) = some x →
      runQuery ⟨cols, none⟩ t
        = .ok (.failed (.ColumnNotFound x (colNames t)))) ∧
    (∀ (cols : List String) (x c : String) (v : Value),
      (colNames t).Nodup → c ∈ colNames t →
      cols.find? (fun y => !decide (y ∈ colNames t)) = some x →
      runQuery ⟨cols, some ⟨c, v, .Greater⟩⟩ t
        = .ok (.failed (.ColumnNotFound x (colNames t)))) ∧
    (∀ (cols : List String) (x c : String) (v : Value) (row_ids : List Nat),
      apply_filter ⟨t, ⟨builtIndices t⟩⟩ ⟨c, v, .Equal⟩ = .ok row_ids →
      cols.find? (fun y => !decide (y ∈ colNames t)) = some x →
      runQuery ⟨cols, some ⟨c, v, .Equal⟩⟩ t
        = .ok (.failed (.ColumnNotFound x (colNames t)))) := by
  have herr : ∀ (cols : List String) (x : String),
      cols.find? (fun y => !decide (y ∈ colNames t)) = some x →
      mapExcept t.find_column_position cols
        = .error (.ColumnNotFound x (colNames t)) := by
    intro cols x hfind
    exact mapExcept_error_of_find t.find_column_position
      (fun y => !decide (y ∈ colNames t))
      (fun y => .ColumnNotFound y (colNames t))
      (fun a ha => ⟨columnPos t a,
        (columnPos_spec t a (by simpa using ha)).1⟩)
      (fun a ha => find_column_position_error t a (by simpa using ha))
      cols x hfind
  refine ⟨?_, ?_, ?_, ?_⟩
  · intro cols fc v ft hfc
    unfold runQuery
    rw [build_indices_ok t hw]
    show Except.ok (execute ⟨cols, some ⟨fc, v, ft⟩⟩ ⟨t, ⟨builtIndices t⟩⟩) = _
    congr 1
    have haf : apply_filter ⟨t, ⟨builtIndices t⟩⟩ ⟨fc, v, ft⟩
        = .failed (.ColumnNotFound fc (colNames t)) := by
      unfold apply_filter
      show (match lookupIndex (builtIndices t) fc with
            | some column_index => filter_using_index ⟨fc, v, ft⟩ column_index
            | none => filter_by_scanning ⟨t, ⟨builtIndices t⟩⟩ ⟨fc, v, ft⟩) = _
      rw [lookupIndex_none t fc hfc]
      show filter_by_scanning ⟨t, ⟨builtIndices t⟩⟩ ⟨fc, v, ft⟩ = _
      unfold filter_by_scanning
      show (match t.find_column_position fc with
            | .error e => RunResult.failed e
            | .ok column_position =>
              match mapOption (fun p : Nat × Row =>
                  (p.2.fields.get? column_position).map (fun w => (p.1, w)))
                  t.rows.enum with
              | none => RunResult.aborted
              | some positioned => RunResult.ok
                  ((positioned.filter
                    (fun p : Nat × Value => matchesFilter ⟨fc, v, ft⟩ p.2)).map
                    (fun p : Nat × Value => p.1))) = _
      rw [find_column_position_error t fc hfc]
    unfold execute
    show (match apply_filter ⟨t, ⟨builtIndices t⟩⟩ ⟨fc, v, ft⟩ with
          | .aborted => RunResult.aborted
          | .failed e => RunResult.failed e
          | .ok row_ids => project_rows ⟨t, ⟨builtIndices t⟩⟩ row_ids cols) = _
    rw [haf]
  · intro cols x hfind
    unfold runQuery
    rw [build_indices_ok t hw]
    show Except.ok (execute ⟨cols, none⟩ ⟨t, ⟨builtIndices t⟩⟩) = _
    congr 1
    unfold execute
    show project_rows ⟨t, ⟨builtIndices t⟩⟩ (List.range t.rows.length) cols = _
    unfold project_rows
    show (match mapExcept t.find_column_position cols with
          | .error e => RunResult.failed e
          | .ok column_positions =>
            match mapOption (fun row_id => (t.rows.get? row_id).bind (fun row =>
                mapOption (fun p => row.fields.get? p) column_positions))
                (List.range t.rows.length) with
            | none => RunResult.aborted
            | some projected =>
              RunResult.ok (ResultSet.mk (projected.map ResultSetRow.mk))) = _
    rw [herr cols x hfind]
  · intro cols x c v hnd hc hfind
    unfold runQuery
    rw [build_indices_ok t hw]
    show Except.ok (execute ⟨cols, some ⟨c, v, .Greater⟩⟩ ⟨t, ⟨builtIndices t⟩⟩) = _
    congr 1
    unfold execute
    show (match apply_filter ⟨t, ⟨builtIndices t⟩⟩ ⟨c, v, .Greater⟩ with
          | .aborted => RunResult.aborted
          | .failed e => RunResult.failed e
          | .ok row_ids => project_rows ⟨t, ⟨builtIndices t⟩⟩ row_ids cols) = _
    rw [apply_filter_greater_ok t hnd c hc v]
    show project_rows ⟨t, ⟨builtIndices t⟩⟩
      ((matchingGreater t (columnPos t c) v).map (fun e : ValueInRow => e.row_index))
      cols = _
    unfold project_rows
    show (match mapExcept t.find_column_position cols with
          | .error e => RunResult.failed e
          | .ok column_positions =>
            match mapOption (fun row_id => (t.rows.get? row_id).bind (fun row =>
                mapOption (fun p => row.fields.get? p) column_positions))
                ((matchingGreater t (columnPos t c) v).map
                  (fun e : ValueInRow => e.row_index)) with
            | none => RunResult.aborted
            | some projected =>
              RunResult.ok (ResultSet.mk (projected.map ResultSetRow.mk))) = _
    rw [herr cols x hfind]
  · intro cols x c v row_ids haf hfind
    unfold runQuery
    rw [build_indices_ok t hw]
    show Except.ok (execute ⟨cols, some ⟨c, v, .Equal⟩⟩ ⟨t, ⟨builtIndices t⟩⟩) = _
    congr 1
    unfold execute
    show (match apply_filter ⟨t, ⟨builtIndices t⟩⟩ ⟨c, v, .Equal⟩ with
          | .aborted => RunResult.aborted
          | .failed e => RunResult.failed e
          | .ok row_ids => project_rows ⟨t, ⟨builtIndices t⟩⟩ row_ids cols) = _
    rw [haf]
    show project_rows ⟨t, ⟨builtIndices t⟩⟩ row_ids cols = _
    unfold project_rows
    show (match mapExcept t.find_column_position cols with
          | .error e => RunResult.failed e
          | .ok column_positions =>
            match mapOption (fun row_id => (t.rows.get? row_id).bind (fun row =>
                mapOption (fun p => row.fields.get? p) column_positions))
                row_ids with
            | none => RunResult.aborted
            | some projected =>
              RunResult.ok (ResultSet.mk (projected.map ResultSetRow.mk))) = _
    rw [herr cols x hfind]

/-- Witness for C7's hypotheses: on the fixture table, the Equal filter
`column3 = 9` completes without panicking (its row selection yields row 3),
and the absent projection column `column9` is reported as `ColumnNotFound`. -/
theorem column_not_found_cases_witness :
    runQuery ⟨["column9"], some ⟨"column3", .Integer 9, .Equal⟩⟩ fixtureTable
      = .ok (.failed (.ColumnNotFound "column9" (colNames fixtureTable))) :=
  (column_not_found_cases fixtureTable (by decide)).2.2.2 ["column9"] "column9"
    "column3" (.Integer 9) [3] (by decide) (by decide)

/-- C10: `Value.cmp` is a lawful total order — reflexive, antisymmetric
(`eq` exactly on structural equality), swap-consistent, total and
transitive — and under the cross-variant debug-string fallback every
`Integer` value compares strictly less than every `Text` value, so in any
sorted index all Integer entries precede all Text entries. -/
theorem value_cmp_lawful_total_order_integer_before_text :
    (∀ a : Value, Value.cmp a a = .eq) ∧
    (∀ a b : Value, Value.cmp a b = .eq ↔ a = b) ∧
    (∀ a b : Value, Value.cmp a b = (Value.cmp b a).swap) ∧
    (∀ a b : Value, Value.cmp a b ≠ .gt ∨ Value.cmp b a ≠ .gt) ∧
    (∀ a b c : Value, Value.cmp a b = .lt → Value.cmp b c = .lt → Value.cmp a c = .lt) ∧
    (∀ (n : Nat) (s : String), Value.cmp (.Integer n) (.Text s) = .lt) :=
  ⟨Value.cmp_self, fun _ _ => Value.cmp_eq_eq, Value.cmp_swap, Value.cmp_total,
   fun _ _ _ => Value.cmp_trans_lt, cmp_Integer_Text⟩

/-- Witness for the hypotheses of C10's transitivity conjunct at concrete
values. -/
theorem value_cmp_lawful_total_order_integer_before_text_witness :
    Value.cmp (.Integer 1) (.Integer 3) = .lt :=
  value_cmp_lawful_total_order_integer_before_text.2.2.2.2.1
    (.Integer 1) (.Integer 2) (.Integer 3) (by decide) (by decide)

/-- C1 (failing input): on `pairTable` (rows `(a,1) (b,1)`) the query
`PROJECT column1 FILTER column2 = 1` returns only row `b`, although row 0
(`a`) also has `column2 = 1` (second conjunct) — the leftward expansion never
examines index position 0, so the result is not exhaustive.  The spec's cited
duplicate-key scenario itself does return all of `c`, `d`, `e` (third
conjunct), because there the run of equal keys starts above position 0. -/
theorem equal_filter_misses_entry_at_index_position_zero :
    runQuery ⟨["column1"], some ⟨"column2", .Integer 1, .Equal⟩⟩ pairTable
      = .ok (.ok ⟨[⟨[.Text "b"]⟩]⟩) ∧
    (pairTable.rows.getD 0 ⟨[]⟩).fields.getD 1 (.Text "") = .Integer 1 ∧
    runQuery ⟨["column1"], some ⟨"column2", .Integer 3, .Equal⟩⟩ dupTable
      = .ok (.ok ⟨[⟨[.Text "d"]⟩, ⟨[.Text "c"]⟩, ⟨[.Text "e"]⟩]⟩) := by
  decide

/-- C3 (failing input): on `pairTable` with the filter `column2 = 1`, the index
path produces `[1]` while the full-scan path produces `[0, 1]`: row position 0
is in the scan result but not in the index result, so the two paths are not
set-equal. -/
theorem index_path_and_scan_path_not_set_equal :
    pairTable.build_indices.map
        (fun it => (apply_filter it ⟨"column2", .Integer 1, .Equal⟩,
                    filter_by_scanning it ⟨"column2", .Integer 1, .Equal⟩))
      = .ok (.ok [1], .ok [0, 1]) ∧
    (0 : Nat) ∈ ([0, 1] : List Nat) ∧ (0 : Nat) ∉ ([1] : List Nat) := by
  decide

/-- C4 (failing input): `execute` is not total.  On `singleTable` the Equal
filter's binary search finds its match at index position 0; the unguarded
`found_idx - 1` wraps around and the subsequent index read panics, so the
query aborts instead of returning a result set or a typed error (and the
matching entry at position 0 is not collected). -/
theorem execute_panics_when_binary_search_hits_position_zero :
    runQuery ⟨["column1"], some ⟨"column2", .Integer 1, .Equal⟩⟩ singleTable
      = .ok .aborted ∧
    filter_using_index_equal_to (.Integer 1) [⟨.Integer 1, 0⟩] = none := by
  decide

/-- C5 counterexample: the empty string passes the vacuous all-digit check, so
`parse_value` attempts the integer parse and fails with a `ParseError` — it
does not return `Text("")` as the claim states; and `"007"` parses to
`Ok(Integer(7))` — a leading zero does not raise a `ParseError`. -/
theorem parse_value_empty_and_leading_zero :
    Value.parse_value "" = .error .emptyNumber ∧
    Value.parse_value "" ≠ .ok (.Text "") ∧
    Value.parse_value "007" = .ok (.Integer 7) := by
  decide

/-- C7 counterexample: `PROJECT colX FILTER column2 = 1` on `singleTable`
references the absent column `colX` in its projection list, yet `execute`
panics during row selection (the Equal-filter underflow of C4) before the
projection columns are ever resolved, so no `ColumnNotFound` error is
produced. -/
theorem column_not_found_preempted_by_panic :
    runQuery ⟨["colX"], some ⟨"column2", .Integer 1, .Equal⟩⟩ singleTable
      = .ok .aborted := by
  decide

/-- C8: a filter value token is stripped of its surrounding double quotes
before `parse_value`'s all-digit classification: whenever `parse_filter`
yields a filter, the filter's value is `parse_value` of the quote-trimmed
token at `position + 3`; in particular the quoted token `"42"` and the bare
token `42` both produce `Integer(42)` — quoting does not force Text typing. -/
theorem quoted_filter_value_parses_like_bare :
    (∀ (tokens : List String) (position : Nat) (f : Filter) (next : Nat),
      Query.parse_filter tokens position = .ok (some f, next) →
      ∃ tok, tokens.get? (position + 3) = some tok ∧
        Value.parse_value (trimQuoteMatches tok) = .ok f.value) ∧
    Query.parse_filter ["FILTER", "c", "=", "\"42\""] 0
      = .ok (some ⟨"c", .Integer 42, .Equal⟩, 4) ∧
    Query.parse_filter ["FILTER", "c", "=", "42"] 0
      = .ok (some ⟨"c", .Integer 42, .Equal⟩, 4) := by
  refine ⟨?_, by decide, by decide⟩
  intro tokens position f next h
  unfold Query.parse_filter at h
  split at h
  · simp at h
  · rename_i tok h0
    split at h
    · split at h
      · simp at h
      · rename_i column h1
        split at h
        · simp at h
        · rename_i opTok h2
          split at h
          · simp at h
          · rename_i ft h3
            split at h
            · simp at h
            · rename_i valTok h4
              split at h
              · simp at h
              · rename_i v h5
                obtain ⟨tok4, h6, h7⟩ :
                    ∃ t, tokens.get? (position + 3) = some t ∧ trimQuoteMatches t = valTok := by
                  cases h9 : tokens.get? (position + 3) with
                  | none => rw [h9] at h4; cases h4
                  | some t => rw [h9] at h4; exact ⟨t, rfl, by simpa using h4⟩
                refine ⟨tok4, h6, ?_⟩
                rw [h7, h5]
                simp only [Except.ok.injEq, Prod.mk.injEq, Option.some.injEq] at h
                rw [← h.1]
    · simp at h

/-- Witness for C8's general conjunct at a concrete token list. -/
theorem quoted_filter_value_parses_like_bare_witness :
    ∃ tok, (["FILTER", "a", "=", "\"7\""] : List String).get? (0 + 3) = some tok ∧
      Value.parse_value (trimQuoteMatches tok) = .ok (Value.Integer 7) :=
  quoted_filter_value_parses_like_bare.1 ["FILTER", "a", "=", "\"7\""] 0
    ⟨"a", .Integer 7, .Equal⟩ 4 (by decide)

/-- C5 amended: `parse_value` classifies a string as `Integer` exactly when
every character is an ASCII decimal digit, the string is nonempty and its
numeric value fits in 64 unsigned bits (leading zeros accepted); an all-digit
string that is empty or whose value overflows fails with a `ParseError`; any
string containing a non-digit character is `Text` verbatim. -/
theorem parse_value_classification (s : String) :
    (s.data.all Char.isDigit = false → Value.parse_value s = .ok (.Text s)) ∧
    (s.data.all Char.isDigit = true → s ≠ "" → natOfDigits s.data < 2 ^ 64 →
      Value.parse_value s = .ok (.Integer (natOfDigits s.data))) ∧
    (s.data.all Char.isDigit = true → s ≠ "" → 2 ^ 64 ≤ natOfDigits s.data →
      Value.parse_value s = .error .numberOverflow) ∧
    (s = "" → Value.parse_value s = .error .emptyNumber) := by
  have hcons : s ≠ "" → ∃ c rest, s.data = c :: rest := by
    intro hne
    cases hd2 : s.data with
    | nil => exact absurd (String.ext (hd2.trans rfl)) hne
    | cons c rest => exact ⟨c, rest, rfl⟩
  refine ⟨?_, ?_, ?_, ?_⟩
  · intro h
    simp [Value.parse_value, h]
  · intro hd hne hlt
    obtain ⟨c, rest, hd2⟩ := hcons hne
    have hc' : c ≠ '+' := by
      intro hc
      subst hc
      rw [hd2] at hd
      simp only [List.all_cons, Bool.and_eq_true] at hd
      exact absurd hd.1 (by decide)
    unfold Value.parse_value
    rw [if_pos hd]
    unfold u64FromStr
    rw [if_neg (by rw [hd2]; simp [hc'] : ¬ (s.data.head? = some '+'))]
    unfold u64FromDigits
    rw [if_neg (by rw [hd2]; simp : ¬ (s.data.isEmpty = true))]
    rw [if_pos hd, if_pos hlt]
    rfl
  · intro hd hne hover
    obtain ⟨c, rest, hd2⟩ := hcons hne
    have hc' : c ≠ '+' := by
      intro hc
      subst hc
      rw [hd2] at hd
      simp only [List.all_cons, Bool.and_eq_true] at hd
      exact absurd hd.1 (by decide)
    unfold Value.parse_value
    rw [if_pos hd]
    unfold u64FromStr
    rw [if_neg (by rw [hd2]; simp [hc'] : ¬ (s.data.head? = some '+'))]
    unfold u64FromDigits
    rw [if_neg (by rw [hd2]; simp : ¬ (s.data.isEmpty = true))]
    rw [if_pos hd, if_neg (Nat.not_lt.mpr hover)]
    rfl
  · intro h
    subst h
    decide

/-- Witness for C5's hypotheses at the concrete all-digit input `42`. -/
theorem parse_value_classification_witness :
    Value.parse_value "42" = .ok (.Integer (natOfDigits "42".data)) :=
  (parse_value_classification "42").2.1 (by decide) (by decide) (by decide)

end SimpleQueryEngine
